import Mathlib

/-!
Verification development for the `forb` form-validation library.

The library has two halves:

* `src/validator.ts`: a pure rule evaluator `validator(value, validators)`
  over a closed catalog of rule classes (`RequiredValidator`,
  `MaxLengthValidator`, `MinLengthValidator`, `RangeLengthValidator`,
  `RangeValidator`, `PatternValidator`, `EmailValidator`);
* `src/useForb.tsx`: a coordinator hook whose `validate()` resets a mutable
  validity flag, synchronously broadcasts a "validate" event to every
  subscribed field binding, and returns the flag.

The embedding below translates that code directly.  JavaScript strings are
Lean `String`s (the values exercised here are ASCII, where UTF-16 length and
codepoint length agree), `string | null` is `Option String`, JavaScript
numbers are modelled exactly with `Rat` plus explicit NaN/infinity markers
(every numeric literal appearing in the code and claims is exactly
representable in binary64, so rational arithmetic is faithful), and a
JavaScript regular expression is a small classical regex whose `test` is run
by Brzozowski derivatives.
-/

namespace Forb

/-- Whitespace as recognised by JavaScript `trim` / `parseFloat`:
space, tab, LF, CR, VT, FF and NBSP. -/
def jsIsSpace (c : Char) : Bool :=
  c.toNat = 32 || c.toNat = 9 || c.toNat = 10 || c.toNat = 13 ||
  c.toNat = 11 || c.toNat = 12 || c.toNat = 160

/-- Model of JavaScript `String.prototype.trim`: strip whitespace from both
ends. -/
def jsTrim (s : String) : String :=
  String.mk (((s.toList.dropWhile jsIsSpace).reverse.dropWhile jsIsSpace).reverse)

/-- Decimal digit test (`0`..`9`). -/
def isDigit10 (c : Char) : Bool :=
  48 ≤ c.toNat && c.toNat ≤ 57

/-- Value of a list of decimal digits, most significant first. -/
def digitsToNat (ds : List Char) : Nat :=
  ds.foldl (fun a c => a * 10 + (c.toNat - 48)) 0

/-- Result of JavaScript `parseFloat`: NaN, an infinity, or a finite number
(held exactly as a rational). -/
inductive JSNumber where
  | nan : JSNumber
  | posInf : JSNumber
  | negInf : JSNumber
  | fin (q : Rat) : JSNumber
deriving DecidableEq

/-- Value `sgn * mant * 10 ^ scale` as an exact rational. -/
def decValue (sgn : Int) (mant : Nat) (scale : Int) : Rat :=
  if 0 ≤ scale then ((sgn * mant * 10 ^ scale.toNat : Int) : Rat)
  else ((sgn * mant : Int) : Rat) / ((10 : Rat) ^ (-scale).toNat)

/-- Exponent digits after an optional sign: if no digits follow, the
exponent part is not consumed and contributes 0. -/
def expAfterSign (sgn : Int) (cs : List Char) : Int :=
  let ds := cs.takeWhile isDigit10
  if ds.isEmpty then 0 else sgn * (digitsToNat ds : Int)

/-- Exponent part after the `e`/`E` marker: optional `+`/`-`, then digits. -/
def expPart (cs : List Char) : Int :=
  match cs with
  | [] => 0
  | c :: r =>
      if c.toNat = 43 then expAfterSign 1 r
      else if c.toNat = 45 then expAfterSign (-1) r
      else expAfterSign 1 cs

/-- Character list spelling `Infinity`. -/
def infinityChars : List Char :=
  ['I', 'n', 'f', 'i', 'n', 'i', 't', 'y']

/-- Unsigned part of `parseFloat`: `Infinity`, or integer digits, an optional
fraction, and an optional exponent; the longest valid prefix is consumed and
everything after it is ignored. -/
def parseUnsigned (sgn : Int) (cs : List Char) : JSNumber :=
  if cs.take 8 = infinityChars then
    (if sgn = 1 then JSNumber.posInf else JSNumber.negInf)
  else
    let intDs := cs.takeWhile isDigit10
    let rest := cs.dropWhile isDigit10
    let fracDs :=
      match rest with
      | c :: r => if c.toNat = 46 then r.takeWhile isDigit10 else []
      | [] => []
    let rest2 :=
      match rest with
      | c :: r => if c.toNat = 46 then r.dropWhile isDigit10 else rest
      | [] => rest
    if intDs.isEmpty && fracDs.isEmpty then JSNumber.nan
    else
      let expo :=
        match rest2 with
        | c :: r => if c.toNat = 101 || c.toNat = 69 then expPart r else 0
        | [] => 0
      JSNumber.fin (decValue sgn (digitsToNat (intDs ++ fracDs)) (expo - fracDs.length))

/-- Model of JavaScript `parseFloat` on a character list: skip leading
whitespace, read an optional sign, then the unsigned part. -/
def parseFloatChars (cs : List Char) : JSNumber :=
  let cs2 := cs.dropWhile jsIsSpace
  match cs2 with
  | [] => JSNumber.nan
  | c :: r =>
      if c.toNat = 45 then parseUnsigned (-1) r
      else if c.toNat = 43 then parseUnsigned 1 r
      else parseUnsigned 1 cs2

/-- Model of JavaScript `parseFloat` on a string. -/
def parseFloat (s : String) : JSNumber :=
  parseFloatChars s.toList

/-- JavaScript `n >= q` for a parse result against a finite bound. -/
def jsGE (n : JSNumber) (q : Rat) : Bool :=
  match n with
  | JSNumber.nan => false
  | JSNumber.posInf => true
  | JSNumber.negInf => false
  | JSNumber.fin x => decide (q ≤ x)

/-- JavaScript `n <= q` for a parse result against a finite bound. -/
def jsLE (n : JSNumber) (q : Rat) : Bool :=
  match n with
  | JSNumber.nan => false
  | JSNumber.posInf => false
  | JSNumber.negInf => true
  | JSNumber.fin x => decide (x ≤ q)

/-- Classical regular expressions over characters; `cls` matches one
character satisfying a predicate, which models a JavaScript character class
(or `.`, or a single literal character). -/
inductive RE where
  | emp : RE
  | eps : RE
  | cls (p : Char → Bool) : RE
  | alt (r s : RE) : RE
  | cat (r s : RE) : RE
  | star (r : RE) : RE

/-- Whether a regex accepts the empty string. -/
def nullable : RE → Bool
  | RE.emp => false
  | RE.eps => true
  | RE.cls _ => false
  | RE.alt r s => nullable r || nullable s
  | RE.cat r s => nullable r && nullable s
  | RE.star _ => true

/-- Alternation that drops syntactic empty-language operands (language
preserving; keeps derivatives small). -/
def mkAlt : RE → RE → RE
  | RE.emp, s => s
  | r, RE.emp => r
  | r, s => RE.alt r s

/-- Concatenation that simplifies empty-language and empty-string operands
(language preserving; keeps derivatives small). -/
def mkCat : RE → RE → RE
  | RE.emp, _ => RE.emp
  | _, RE.emp => RE.emp
  | RE.eps, s => s
  | r, RE.eps => r
  | r, s => RE.cat r s

/-- Brzozowski derivative with respect to one character. -/
def deriv : RE → Char → RE
  | RE.emp, _ => RE.emp
  | RE.eps, _ => RE.emp
  | RE.cls p, c => if p c then RE.eps else RE.emp
  | RE.alt r s, c => mkAlt (deriv r c) (deriv s c)
  | RE.cat r s, c =>
      if nullable r then mkAlt (mkCat (deriv r c) s) (deriv s c)
      else mkCat (deriv r c) s
  | RE.star r, c => mkCat (deriv r c) (RE.star r)

/-- Whether some prefix of the character list belongs to the regex's
language. -/
def matchesFrom : RE → List Char → Bool
  | r, [] => nullable r
  | r, c :: cs => nullable r || matchesFrom (deriv r c) cs

/-- Model of JavaScript `RegExp.prototype.test` for an unanchored pattern:
true when some substring of `s` (a prefix of some suffix) matches. -/
def reTest (r : RE) (s : String) : Bool :=
  (s.toList.tails).any (fun t => matchesFrom r t)

/-- Regex matching exactly one given character. -/
def reChar (c : Char) : RE :=
  RE.cls (fun x => x == c)

/-- One or more repetitions (`+`). -/
def rePlus (r : RE) : RE :=
  RE.cat r (RE.star r)

/-- JavaScript `.`: any character except the line terminators LF, CR,
U+2028 and U+2029. -/
def reAnyDot : RE :=
  RE.cls (fun c => !(c.toNat = 10 || c.toNat = 13 || c.toNat = 8232 || c.toNat = 8233))

/-- The character class used by the email pattern in both the local part
and the dotted domain: `!`, `#`..apostrophe, `*`, `+`, slash..`9`, `=`,
`?`, `A`..`Z`, `^`..`~`, `-`. -/
def atomCls (c : Char) : Bool :=
  c.toNat = 33 || (35 ≤ c.toNat && c.toNat ≤ 39) || c.toNat = 42 || c.toNat = 43 ||
  (47 ≤ c.toNat && c.toNat ≤ 57) || c.toNat = 61 || c.toNat = 63 ||
  (65 ≤ c.toNat && c.toNat ≤ 90) || (94 ≤ c.toNat && c.toNat ≤ 126) || c.toNat = 45

/-- The dotted form `A+(.A+)*` used for both the plain local part and the
first domain alternative; the separator is an unescaped dot, i.e. ANY
character, not just `.`. -/
def dottedAtoms : RE :=
  RE.cat (rePlus (RE.cls atomCls))
    (RE.star (RE.cat reAnyDot (rePlus (RE.cls atomCls))))

/-- The negated class `[^-~ \t]` inside the quoted-local alternative:
anything except dash, tilde, space and tab. -/
def notDashTildeSpaceTab (c : Char) : Bool :=
  !(c.toNat = 45 || c.toNat = 126 || c.toNat = 32 || c.toNat = 9)

/-- First alternative inside the quoted local part, `[]!#-[^-~ \t]`: in
JavaScript `[]` is an empty character class matching nothing, followed by
literal `!`, `#`, `-` and the negated class, so the whole concatenation
matches nothing. -/
def quotedDeadAlt : RE :=
  RE.cat (RE.cls (fun _ => false))
    (RE.cat (reChar (Char.ofNat 33))
      (RE.cat (reChar (Char.ofNat 35))
        (RE.cat (reChar (Char.ofNat 45)) (RE.cls notDashTildeSpaceTab))))

/-- Second alternative inside the quoted local part, `(\[\t -~])`: the
six-character literal sequence left-bracket, tab, space, dash, tilde,
right-bracket. -/
def quotedBracketSeq : RE :=
  RE.cat (reChar (Char.ofNat 91))
    (RE.cat (reChar (Char.ofNat 9))
      (RE.cat (reChar (Char.ofNat 32))
        (RE.cat (reChar (Char.ofNat 45))
          (RE.cat (reChar (Char.ofNat 126)) (reChar (Char.ofNat 93))))))

/-- Quoted local part `"(...)+"`. -/
def quotedLocal : RE :=
  RE.cat (reChar (Char.ofNat 34))
    (RE.cat (rePlus (RE.alt quotedDeadAlt quotedBracketSeq)) (reChar (Char.ofNat 34)))

/-- The class `[[\t -Z^-~]` of the bracketed domain alternative:
left-bracket, tab, space..`Z`, `^`..`~`. -/
def domainBracketCls (c : Char) : Bool :=
  c.toNat = 91 || c.toNat = 9 || (32 ≤ c.toNat && c.toNat ≤ 90) ||
  (94 ≤ c.toNat && c.toNat ≤ 126)

/-- Second domain alternative `[[\t -Z^-~]*]`: the class starred, then a
literal right-bracket. -/
def domainBracket : RE :=
  RE.cat (RE.star (RE.cls domainBracketCls)) (reChar (Char.ofNat 93))

/-- The exact regex built by `EmailValidator`:
`(local-dotted | quoted)@(domain-dotted | domain-bracket)`. -/
def emailRE : RE :=
  RE.cat (RE.alt dottedAtoms quotedLocal)
    (RE.cat (reChar (Char.ofNat 64)) (RE.alt dottedAtoms domainBracket))



/-- The rule catalog of `validator.ts`.  Each concrete subclass of the
abstract `Validator` class is one constructor carrying its configuration
parameters and the fixed error message; `EmailValidator`, being
`PatternValidator` specialised to the email regex, is `Validator.email`
below. -/
inductive Validator where
  | required (errorMessage : String) : Validator
  | maxLength (max : Nat) (errorMessage : String) : Validator
  | minLength (min : Nat) (errorMessage : String) : Validator
  | rangeLength (min max : Nat) (errorMessage : String) : Validator
  | range (min max : Rat) (errorMessage : String) : Validator
  | pattern (re : RE) (errorMessage : String) : Validator

/-- The `EmailValidator` subclass: `PatternValidator` constructed with the
fixed email regex. -/
def Validator.email (errorMessage : String) : Validator :=
  Validator.pattern emailRE errorMessage

/-- The `ignoreEmptyValues` field of each subclass: false for
`RequiredValidator`, true everywhere else. -/
def Validator.ignoreEmptyValues : Validator → Bool
  | Validator.required _ => false
  | Validator.maxLength _ _ => true
  | Validator.minLength _ _ => true
  | Validator.rangeLength _ _ _ => true
  | Validator.range _ _ _ => true
  | Validator.pattern _ _ => true

/-- The `errorMessage` field set by each constructor. -/
def Validator.errorMessage : Validator → String
  | Validator.required m => m
  | Validator.maxLength _ m => m
  | Validator.minLength _ m => m
  | Validator.rangeLength _ _ m => m
  | Validator.range _ _ m => m
  | Validator.pattern _ m => m

/-- The `validate` method of each subclass, translated clause by clause:
`required` checks the trimmed value is non-empty; the length rules compare
`value.length` against their bounds; `range` runs `parseFloat` and compares
(the JavaScript code computes `parseFloat(value!)` eagerly but the leading
`value !== null` conjunct short-circuits the null case to false); `pattern`
runs the regex's unanchored `test`. -/
def Validator.validate : Validator → Option String → Bool
  | Validator.required _, none => false
  | Validator.required _, some s => decide (0 < (jsTrim s).length)
  | Validator.maxLength _ _, none => false
  | Validator.maxLength mx _, some s => decide (s.length ≤ mx)
  | Validator.minLength _ _, none => false
  | Validator.minLength mn _, some s => decide (mn ≤ s.length)
  | Validator.rangeLength _ _ _, none => false
  | Validator.rangeLength mn mx _, some s => decide (mn ≤ s.length) && decide (s.length ≤ mx)
  | Validator.range _ _ _, none => false
  | Validator.range mn mx _, some s =>
      let numericValue := parseFloat s
      !(numericValue = JSNumber.nan) && jsGE numericValue mn && jsLE numericValue mx
  | Validator.pattern _ _, none => false
  | Validator.pattern re _, some s => reTest re s

/-- The `isEmpty` computation at the top of the `validator` function:
`value === null || value.trim().length === 0`. -/
def isEmptyValue (value : Option String) : Bool :=
  match value with
  | none => true
  | some s => decide ((jsTrim s).length = 0)

/-- Loop body of the `validator` function: scan the rules in order; on the
first rule with `ignoreEmptyValues && isEmpty` return a closure yielding
null, on the first rule whose `validate` is false return a closure yielding
its error message, otherwise continue; return a closure yielding null when
no rule is decisive.  `e` is the `isEmpty` flag computed once up front. -/
def validatorGo (value : Option String) (e : Bool) : List Validator → Unit → Option String
  | [] => fun _ => none
  | v :: rest =>
      if v.ignoreEmptyValues && e then fun _ => none
      else if !(v.validate value) then fun _ => some v.errorMessage
      else validatorGo value e rest

/-- The exported `validator(value, validators)` function: computes `isEmpty`
once, then scans the list.  The returned value models the returned
JavaScript closure (`() => ...`), which captures only immutable data. -/
def validator (value : Option String) (vs : List Validator) : Unit → Option String :=
  validatorGo value (isEmptyValue value) vs

/-- Modelled from the spec (§4.3 scan rule), for comparison with the code:
a rule is decisive when it is empty-skippable on an empty value or its
`validate` rejects the value. -/
def specDecisive (value : Option String) (r : Validator) : Bool :=
  (r.ignoreEmptyValues && isEmptyValue value) || !(r.validate value)

/-- Modelled from the spec (§4.3), for comparison with the code: find the
first decisive rule in list order; an empty-skip yields none, a failing rule
yields its fixed error message, no decisive rule yields none. -/
def specEvaluate (value : Option String) (rs : List Validator) : Option String :=
  match rs.find? (specDecisive value) with
  | none => none
  | some r =>
      if r.ignoreEmptyValues && isEmptyValue value then none
      else some r.errorMessage


/-- Truthiness of a JavaScript `string | null`: null and the empty string
are falsy, every other string is truthy. -/
def jsTruthy (r : Option String) : Bool :=
  match r with
  | none => false
  | some s => decide (s.length ≠ 0)

/-- One subscribed field binding of a `useForb` coordinator: a stable
identity (the listener's identity in the event emitter), the caller-supplied
validator (which may throw, modelled by `Except.error`), and the binding's
local `errorMessage` state. -/
structure FieldState where
  id : Nat
  validator : Unit → Except String (Option String)
  errorMessage : Option String

/-- Outcome of one `validate()` broadcast: the exception that escaped (if
any), the final `_isValid` flag, the field bindings with their updated
`errorMessage` state, and the identities of the bindings whose validator was
actually invoked, in invocation order. -/
structure BroadcastResult where
  exc : Option String
  isValid : Bool
  fields : List FieldState
  invoked : List Nat

/-- The synchronous `emit("validate")` dispatch: each subscribed binding's
handler runs in subscription order; the handler calls the registered
wrapper, which invokes the caller's validator and, per
`if (result && _isValid.current) _isValid.current = false`, flips the flag
to false on a truthy result; the binding then stores the result in its
`errorMessage` state.  A thrown exception aborts the dispatch: the throwing
binding's state and every later binding are left untouched. -/
def broadcast : Bool → List FieldState → BroadcastResult
  | b, [] => ⟨none, b, [], []⟩
  | b, f :: rest =>
      match f.validator () with
      | Except.error e => ⟨some e, b, f :: rest, [f.id]⟩
      | Except.ok result =>
          let b2 := if jsTruthy result && b then false else b
          let res := broadcast b2 rest
          ⟨res.exc, res.isValid, { f with errorMessage := result } :: res.fields,
            f.id :: res.invoked⟩

/-- The body of `validate()`: reset `_isValid` to true, then emit the
broadcast. -/
def validateRun (fields : List FieldState) : BroadcastResult :=
  broadcast true fields

/-- The value `validate()` returns to its caller: the flag after the
broadcast, or nothing when a validator's exception propagated out. -/
def validateReturn (fields : List FieldState) : Option Bool :=
  let r := validateRun fields
  if r.exc.isSome then none else some r.isValid

/-- Tearing down a field binding: its cleanup calls
`control.removeListener("validate", onValidate)`, removing its handler from
the emitter's subscriber list. -/
def unsubscribe (fields : List FieldState) (i : Nat) : List FieldState :=
  fields.filter (fun f => f.id ≠ i)

/-- A binding whose validator always passes (returns null). -/
def passingField (i : Nat) : FieldState :=
  ⟨i, fun _ => Except.ok none, none⟩

/-- A binding whose validator always fails with message `m`. -/
def failingField (i : Nat) (m : String) : FieldState :=
  ⟨i, fun _ => Except.ok (some m), none⟩

/-- A binding whose validator always throws `e`. -/
def throwingField (i : Nat) (e : String) : FieldState :=
  ⟨i, fun _ => Except.error e, none⟩

/-- A binding whose validator returns the empty string as its error
message: a non-null but falsy result. -/
def emptyMessageField : FieldState :=
  ⟨0, fun _ => Except.ok (some ""), none⟩

theorem validatorGo_eq_specEvaluate (value : Option String) (rs : List Validator) :
    validatorGo value (isEmptyValue value) rs () = specEvaluate value rs := by
  induction rs with
  | nil => rfl
  | cons v rest ih =>
      by_cases h1 : (v.ignoreEmptyValues && isEmptyValue value) = true
      · have hdec : specDecisive value v = true := by
          simp [specDecisive, h1]
        simp [validatorGo, specEvaluate, List.find?_cons_of_pos _ hdec, h1]
      · by_cases h2 : v.validate value = true
        · have hdec : specDecisive value v = false := by
            simp only [specDecisive, h1, h2]
            rfl
          have hfind : List.find? (specDecisive value) (v :: rest) =
              List.find? (specDecisive value) rest :=
            List.find?_cons_of_neg _ (by simp [hdec])
          calc validatorGo value (isEmptyValue value) (v :: rest) ()
              = validatorGo value (isEmptyValue value) rest () := by
                simp [validatorGo, h1, h2]
            _ = specEvaluate value rest := ih
            _ = specEvaluate value (v :: rest) := by
                simp [specEvaluate, hfind]
        · have hdec : specDecisive value v = true := by
            simp [specDecisive, h1, h2]
          simp [validatorGo, specEvaluate, List.find?_cons_of_pos _ hdec, h1, h2]

/-- C1: the closure returned by `validator(value, rules)` yields the outcome
of the first decisive rule in list order — none when the rule is
empty-skippable and the value is empty, the rule's fixed error message when
its `validate` rejects the value, and none when no rule is decisive; in
particular `validator none [Required "R", MinLength 8 "M"] ()` is `"R"`,
not `"M"`. -/
theorem validator_first_decisive_rule (value : Option String) (rs : List Validator) :
    validator value rs () = specEvaluate value rs ∧
    validator none [Validator.required "R", Validator.minLength 8 "M"] () = some "R" :=
  ⟨validatorGo_eq_specEvaluate value rs, by decide⟩

/-- C8: the closure returned by `validator` captures only immutable data, so
repeated invocations all return the same result. -/
theorem validator_idempotent (value : Option String) (rs : List Validator) (u v : Unit) :
    validator value rs u = validator value rs v := by
  cases u
  cases v
  rfl

/-- C9: `validate()` on a coordinator with no subscribed field bindings
broadcasts to nobody and returns true. -/
theorem validate_no_fields_true :
    validateReturn [] = some true ∧ (validateRun []).isValid = true :=
  ⟨rfl, rfl⟩

/-- C6: the Email rule rejects `"bad@"` (no domain follows the `@`) and
accepts the well-formed address `"user@example.com"`. -/
theorem email_rule_examples :
    validator (some "bad@") [Validator.email "invalid"] () = some "invalid" ∧
    validator (some "user@example.com") [Validator.email "invalid"] () = none :=
  ⟨by decide, by decide⟩

/-- C5: the numeric Range rule passes exactly when the value parses (by
`parseFloat`) to a finite number between min and max inclusive, and
concretely `"15"` is rejected by `Range(1,10)` while `"5"` is accepted. -/
theorem range_rule_iff (mn mx : Rat) (m s : String) :
    ((Validator.range mn mx m).validate (some s) = true ↔
      ∃ q : Rat, parseFloat s = JSNumber.fin q ∧ mn ≤ q ∧ q ≤ mx) ∧
    validator (some "15") [Validator.range 1 10 "out of range"] () = some "out of range" ∧
    validator (some "5") [Validator.range 1 10 "out of range"] () = none := by
  refine ⟨?_, by decide, by decide⟩
  cases h : parseFloat s with
  | nan => simp [Validator.validate, h]
  | posInf => simp [Validator.validate, h, jsGE, jsLE]
  | negInf => simp [Validator.validate, h, jsGE, jsLE]
  | fin q => simp [Validator.validate, h, jsGE, jsLE]

theorem broadcast_isValid_le (b : Bool) (fields : List FieldState) :
    (broadcast b fields).isValid ≤ b := by
  induction fields generalizing b with
  | nil => exact le_refl b
  | cons f rest ih =>
      simp only [broadcast]
      cases hv : f.validator () with
      | error e => exact le_refl b
      | ok result =>
          refine le_trans (ih _) ?_
          cases hr : (jsTruthy result && b) <;> simp [Bool.false_le]

/-- C3: within one broadcast the validity flag only ever moves from true to
false: one handler step (the registered wrapper's
`if (result && _isValid) _isValid = false`) never raises the flag, and the
flag after the whole dispatch is never above the flag it started with. -/
theorem validity_flag_one_way (b : Bool) (r : Option String) (fields : List FieldState) :
    (if jsTruthy r && b then false else b) ≤ b ∧ (broadcast b fields).isValid ≤ b := by
  refine ⟨?_, broadcast_isValid_le b fields⟩
  cases hr : (jsTruthy r && b) <;> simp [Bool.false_le]

theorem broadcast_exc_none (b : Bool) (fields : List FieldState)
    (h : ∀ f ∈ fields, ∃ r, f.validator () = Except.ok r) :
    (broadcast b fields).exc = none := by
  induction fields generalizing b with
  | nil => rfl
  | cons f rest ih =>
      obtain ⟨r, hr⟩ := h f (List.mem_cons_self f rest)
      simp only [broadcast, hr]
      exact ih _ (fun g hg => h g (List.mem_cons_of_mem f hg))

theorem broadcast_isValid_false_iff (b : Bool) (fields : List FieldState)
    (h : ∀ f ∈ fields, ∃ r, f.validator () = Except.ok r) :
    ((broadcast b fields).isValid = false ↔
      b = false ∨ ∃ f ∈ fields, ∃ r, f.validator () = Except.ok r ∧ jsTruthy r = true) := by
  induction fields generalizing b with
  | nil => simp [broadcast]
  | cons f rest ih =>
      obtain ⟨r, hr⟩ := h f (List.mem_cons_self f rest)
      have ih2 := ih (if jsTruthy r && b then false else b)
        (fun g hg => h g (List.mem_cons_of_mem f hg))
      have hb2 : ((if jsTruthy r && b then false else b) = false) ↔
          (b = false ∨ jsTruthy r = true) := by
        cases b <;> cases hjt : jsTruthy r <;> simp
      have hEf : (∃ r2, f.validator () = Except.ok r2 ∧ jsTruthy r2 = true) ↔
          jsTruthy r = true := by
        constructor
        · rintro ⟨r2, hr2, ht⟩
          rw [hr] at hr2
          obtain rfl : r = r2 := by injection hr2
          exact ht
        · intro ht
          exact ⟨r, hr, ht⟩
      simp only [broadcast, hr]
      rw [ih2, hb2]
      simp only [List.mem_cons]
      constructor
      · rintro ((hb | hjt) | ⟨g, hg, hgE⟩)
        · exact Or.inl hb
        · exact Or.inr ⟨f, Or.inl rfl, hEf.mpr hjt⟩
        · exact Or.inr ⟨g, Or.inr hg, hgE⟩
      · rintro (hb | ⟨g, (rfl | hg), hgE⟩)
        · exact Or.inl (Or.inl hb)
        · exact Or.inl (Or.inr (hEf.mp hgE))
        · exact Or.inr ⟨g, hg, hgE⟩

/-- C2 counterexample: a subscribed binding whose validator returns the
empty string returns a non-none error message during the broadcast, yet
`validate()` returns true, because the wrapper's
`if (result && _isValid.current)` treats the empty string as falsy.  So the
claimed "false iff some binding returned a non-none message" fails as
stated. -/
theorem validate_nonNone_iff_refuted :
    validateReturn [emptyMessageField] = some true ∧
    ¬ (validateReturn [emptyMessageField] = some false ↔
        ∃ f ∈ [emptyMessageField], ∃ r, f.validator () = Except.ok r ∧ r ≠ none) := by
  refine ⟨by decide, ?_⟩
  intro hiff
  have hR : ∃ f ∈ [emptyMessageField], ∃ r, f.validator () = Except.ok r ∧ r ≠ none :=
    ⟨emptyMessageField, List.mem_cons_self _ _, some "", rfl, by simp⟩
  have hL := hiff.mpr hR
  have : validateReturn [emptyMessageField] = some true := by decide
  rw [this] at hL
  exact absurd hL (by decide)

/-- C2 (amended): when no subscribed validator throws, `validate()` returns
false exactly when at least one currently subscribed binding's validator
returned a truthy — non-none and non-empty — error message during that
call's broadcast; the flag is reset to true at the start of each call, so
each call's result depends only on that call's results. -/
theorem validate_false_iff_truthy_message (fields : List FieldState)
    (h : ∀ f ∈ fields, ∃ r, f.validator () = Except.ok r) :
    validateReturn fields = some false ↔
      ∃ f ∈ fields, ∃ r, f.validator () = Except.ok r ∧ jsTruthy r = true := by
  have hexc := broadcast_exc_none true fields h
  have hiff := broadcast_isValid_false_iff true fields h
  simp only [validateReturn, validateRun] at hexc hiff ⊢
  rw [hexc]
  simp only [Option.isSome_none, Bool.false_eq_true, if_false, Option.some.injEq]
  rw [hiff]
  simp

/-- Witness for C2: three bindings with exactly one failing make
`validate()` return false; the same three all passing make it return true
(the false direction instantiates the theorem, the true direction follows
from its contrapositive at the all-passing input). -/
theorem validate_false_iff_truthy_message_witness :
    validateReturn [failingField 0 "bad", passingField 1, passingField 2] = some false ∧
    validateReturn [passingField 0, passingField 1, passingField 2] ≠ some false := by
  constructor
  · exact (validate_false_iff_truthy_message _ (by
      intro f hf
      fin_cases hf
      · exact ⟨some "bad", rfl⟩
      · exact ⟨none, rfl⟩
      · exact ⟨none, rfl⟩)).mpr
      ⟨failingField 0 "bad", List.mem_cons_self _ _, some "bad", rfl, by decide⟩
  · intro hfalse
    have hE := (validate_false_iff_truthy_message
      [passingField 0, passingField 1, passingField 2] (by
        intro f hf
        fin_cases hf
        · exact ⟨none, rfl⟩
        · exact ⟨none, rfl⟩
        · exact ⟨none, rfl⟩)).mp hfalse
    obtain ⟨g, hg, r, hr, ht⟩ := hE
    fin_cases hg <;> simp [passingField] at hr <;> subst hr <;> simp [jsTruthy] at ht

theorem broadcast_error_components (pre : List FieldState) :
    ∀ (b : Bool) (f : FieldState) (post : List FieldState) (e : String),
      (∀ g ∈ pre, ∃ r, g.validator () = Except.ok r) →
      f.validator () = Except.error e →
      (broadcast b (pre ++ f :: post)).exc = some e ∧
      (broadcast b (pre ++ f :: post)).invoked = pre.map FieldState.id ++ [f.id] ∧
      (broadcast b (pre ++ f :: post)).fields.drop pre.length = f :: post := by
  induction pre with
  | nil =>
      intro b f post e _ hf
      simp only [List.nil_append, broadcast, hf]
      simp
  | cons g pre ih =>
      intro b f post e hpre hf
      obtain ⟨r, hr⟩ := hpre g (List.mem_cons_self g pre)
      have h2 := ih (if jsTruthy r && b then false else b) f post e
        (fun g2 hg2 => hpre g2 (List.mem_cons_of_mem g hg2)) hf
      simp only [List.cons_append, broadcast, hr, List.map_cons, List.length_cons,
        List.append_eq]
      refine ⟨h2.1, ?_, ?_⟩
      · rw [h2.2.1]
      · simp only [List.drop_succ_cons]
        exact h2.2.2

/-- C4: a validator that throws during the broadcast is not caught: the
exception escapes `validate()` (no boolean is returned), exactly the
bindings before the throwing one plus the throwing one itself were invoked,
and the bindings not yet visited keep their previous error-message state. -/
theorem validate_exception_propagates (pre post : List FieldState) (f : FieldState) (e : String)
    (hpre : ∀ g ∈ pre, ∃ r, g.validator () = Except.ok r)
    (hf : f.validator () = Except.error e) :
    (validateRun (pre ++ f :: post)).exc = some e ∧
    validateReturn (pre ++ f :: post) = none ∧
    (validateRun (pre ++ f :: post)).invoked = pre.map FieldState.id ++ [f.id] ∧
    (validateRun (pre ++ f :: post)).fields.drop pre.length = f :: post := by
  have h := broadcast_error_components pre true f post e hpre hf
  refine ⟨h.1, ?_, h.2.1, h.2.2⟩
  simp only [validateReturn, validateRun]
  rw [h.1]
  rfl

/-- Witness for C4: a passing binding, then one that throws `"boom"`, then
another binding; the exception escapes, only the first two bindings are
invoked, and the last binding's state is untouched. -/
theorem validate_exception_propagates_witness :
    (validateRun [passingField 0, throwingField 1 "boom", passingField 2]).exc = some "boom" ∧
    validateReturn [passingField 0, throwingField 1 "boom", passingField 2] = none ∧
    (validateRun [passingField 0, throwingField 1 "boom", passingField 2]).invoked = [0, 1] ∧
    (validateRun [passingField 0, throwingField 1 "boom", passingField 2]).fields.drop 1 =
      [throwingField 1 "boom", passingField 2] :=
  validate_exception_propagates [passingField 0] [passingField 2] (throwingField 1 "boom") "boom"
    (by
      intro g hg
      fin_cases hg
      exact ⟨none, rfl⟩)
    rfl

theorem broadcast_invoked_mem (b : Bool) (fields : List FieldState) :
    ∀ i ∈ (broadcast b fields).invoked, i ∈ fields.map FieldState.id := by
  induction fields generalizing b with
  | nil =>
      intro i hi
      simp [broadcast] at hi
  | cons f rest ih =>
      cases hv : f.validator () with
      | error e =>
          intro i hi
          simp only [broadcast, hv] at hi
          simp only [List.mem_singleton] at hi
          subst hi
          simp
      | ok r =>
          intro i hi
          simp only [broadcast, hv] at hi
          rcases List.mem_cons.mp hi with rfl | hi2
          · simp
          · simp only [List.map_cons, List.mem_cons]
            exact Or.inr (ih _ i hi2)

/-- C7: after a field binding has been torn down (its handler removed from
the emitter's subscriber list), a `validate()` call never invokes that
binding's validator. -/
theorem unsubscribed_never_invoked (fields : List FieldState) (i : Nat) :
    i ∉ (validateRun (unsubscribe fields i)).invoked := by
  intro hmem
  have h := broadcast_invoked_mem true (unsubscribe fields i) i hmem
  simp only [unsubscribe, List.mem_map, List.mem_filter, decide_eq_true_eq] at h
  obtain ⟨g, ⟨_, hgne⟩, hgid⟩ := h
  exact hgne hgid

/-- Witness for C7 at a concrete one-binding coordinator. -/
theorem unsubscribed_never_invoked_witness :
    0 ∉ (validateRun (unsubscribe [passingField 0] 0)).invoked :=
  unsubscribed_never_invoked [passingField 0] 0

theorem decValue_one_zero (m : Nat) : decValue 1 m 0 = (m : Rat) := by
  simp [decValue]

theorem takeWhile_digits_prefix (t : List Char)
    (h2 : ∀ c, t.head? = some c → isDigit10 c = false) :
    ∀ ds : List Char, (∀ c ∈ ds, isDigit10 c = true) →
      (ds ++ t).takeWhile isDigit10 = ds ∧ (ds ++ t).dropWhile isDigit10 = t := by
  intro ds
  induction ds with
  | nil =>
      intro _
      cases t with
      | nil => exact ⟨rfl, rfl⟩
      | cons c r =>
          have hc := h2 c rfl
          simp [List.takeWhile_cons, List.dropWhile_cons, hc]
  | cons d ds ih =>
      intro h1
      have hd := h1 d (List.mem_cons_self d ds)
      have hrest := ih (fun c hc => h1 c (List.mem_cons_of_mem d hc))
      simp [List.takeWhile_cons, List.dropWhile_cons, hd, hrest.1, hrest.2]

theorem parseFloat_digits_prefix (ds t : List Char)
    (hne : ds ≠ [])
    (hds : ∀ c ∈ ds, isDigit10 c = true)
    (ht : ∀ c, t.head? = some c →
      isDigit10 c = false ∧ c.toNat ≠ 46 ∧ c.toNat ≠ 101 ∧ c.toNat ≠ 69) :
    parseFloat (String.mk (ds ++ t)) = JSNumber.fin (digitsToNat ds) := by
  obtain ⟨d, ds2, rfl⟩ : ∃ d ds2, ds = d :: ds2 := by
    cases ds with
    | nil => exact absurd rfl hne
    | cons a l => exact ⟨a, l, rfl⟩
  have hd : isDigit10 d = true := hds d (List.mem_cons_self d ds2)
  have hdnat : 48 ≤ d.toNat ∧ d.toNat ≤ 57 := by
    simpa [isDigit10, Bool.and_eq_true, decide_eq_true_eq] using hd
  have hTD := takeWhile_digits_prefix t (fun c hc => (ht c hc).1) (d :: ds2) hds
  simp only [List.cons_append] at hTD
  have hspace : jsIsSpace d = false := by
    simp only [jsIsSpace, Bool.or_eq_false_iff, decide_eq_false_iff_not]
    omega
  have h45 : ¬ d.toNat = 45 := by omega
  have h43 : ¬ d.toNat = 43 := by omega
  have hinf : ¬ ((d :: (ds2 ++ t)).take 8 = infinityChars) := by
    intro hEq
    have h0 := congrArg List.head? hEq
    have h1 : (List.take 8 (d :: (ds2 ++ t))).head? = some d := rfl
    rw [h1] at h0
    simp only [infinityChars, List.head?_cons, Option.some.injEq] at h0
    rw [h0] at hdnat
    exact absurd hdnat.2 (by decide)
  show parseFloatChars (d :: (ds2 ++ t)) = JSNumber.fin (digitsToNat (d :: ds2))
  simp only [parseFloatChars, List.dropWhile_cons, hspace, Bool.false_eq_true, if_false,
    h43, h45, parseUnsigned, if_neg hinf, hTD.1, hTD.2]
  cases t with
  | nil =>
      simp [decValue_one_zero]
  | cons c r =>
      obtain ⟨hcd, hc46, hc101, hc69⟩ := ht c rfl
      simp [hc46, hc101, hc69, decValue_one_zero]

/-- C10: `RangeValidator.validate` accepts some non-numeric strings:
`parseFloat` consumes only the longest numeric prefix, so a string of
digits followed by non-numeric trailing characters parses to the prefix's
value, and when that value lies within the bounds `validate` returns true —
e.g. `Range(1,10).validate("5abc")` is true. -/
theorem range_accepts_numeric_prefix (mn mx : Rat) (m : String) (ds t : List Char)
    (hne : ds ≠ [])
    (hds : ∀ c ∈ ds, isDigit10 c = true)
    (ht : ∀ c, t.head? = some c →
      isDigit10 c = false ∧ c.toNat ≠ 46 ∧ c.toNat ≠ 101 ∧ c.toNat ≠ 69)
    (hlo : mn ≤ (digitsToNat ds : Rat)) (hhi : (digitsToNat ds : Rat) ≤ mx) :
    parseFloat (String.mk (ds ++ t)) = JSNumber.fin (digitsToNat ds) ∧
    (Validator.range mn mx m).validate (some (String.mk (ds ++ t))) = true := by
  have hparse := parseFloat_digits_prefix ds t hne hds ht
  refine ⟨hparse, ?_⟩
  simp [Validator.validate, hparse, jsGE, jsLE, hlo, hhi]

/-- Witness for C10 at the string `"5abc"` with bounds 1 and 10. -/
theorem range_accepts_numeric_prefix_witness :
    parseFloat (String.mk (['5'] ++ ['a', 'b', 'c'])) = JSNumber.fin (digitsToNat ['5']) ∧
    (Validator.range 1 10 "out of range").validate
      (some (String.mk (['5'] ++ ['a', 'b', 'c']))) = true :=
  range_accepts_numeric_prefix 1 10 "out of range" ['5'] ['a', 'b', 'c']
    (by decide)
    (by decide)
    (by
      intro c hc
      injection hc with hc2
      subst hc2
      decide)
    (by
      have h5 : digitsToNat ['5'] = 5 := rfl
      rw [h5]
      norm_num)
    (by
      have h5 : digitsToNat ['5'] = 5 := rfl
      rw [h5]
      norm_num)

end Forb
